import Mathlib

/-!
Verification of the RAG pipeline of this repository against its specification.

Shallow embedding of:
  - aimakerspace/vectordatabase.py  (VectorDatabase on top of an in-memory Qdrant client)
  - api/rag_lightweight.py          (DocumentProcessor chunking, RAGSystem, tenant registry)
  - api/app.py                      (session cleanup)

Numbers are modelled with the rationals.  The external Qdrant in-memory client
(qdrant_client with the ":memory:" backend) is modelled from its documented
behaviour: a collection is created with a fixed vector size and distance, upsert
rejects vectors whose length differs from the configured size, and query_points
scores every stored point against the query with the distance configured on the
collection, returning hits ordered best-first (descending similarity for cosine
and dot product, ascending distance for Euclidean and Manhattan), truncated to
the requested limit.  The square root used by cosine and Euclidean scoring is
modelled by an integer-part square root that is exact on perfect squares; all
concrete inputs used below only evaluate it on perfect squares, and no ordering
theorem depends on its values.

External providers (tokenizer, embedding model, chat model) are parameters of
the embedded functions, as they are network collaborators in the source.
-/

/-! ## Python string helpers -/

/-- Model of the Python str.strip method: drop leading and trailing whitespace. -/
def pyStripChars (cs : List Char) : List Char :=
  ((cs.dropWhile Char.isWhitespace).reverse.dropWhile Char.isWhitespace).reverse

/-- Model of text.strip() on a whole string. -/
def pyStrip (s : String) : String := ⟨pyStripChars s.data⟩

/-- Number of non-whitespace characters of a string. -/
def countNonWs (s : String) : Nat :=
  (s.data.filter (fun c => !c.isWhitespace)).length

/-- Split a character list on whitespace runs, keeping the non-empty words. -/
def splitWsAux : List Char → List Char → List (List Char)
  | [], acc => if acc.isEmpty then [] else [acc.reverse]
  | c :: cs, acc =>
      if c.isWhitespace then
        if acc.isEmpty then splitWsAux cs [] else acc.reverse :: splitWsAux cs []
      else
        splitWsAux cs (c :: acc)

/-- Whitespace-separated words of a string, in order. -/
def splitWsWords (s : String) : List String :=
  (splitWsAux s.data []).map (fun w => ⟨w⟩)

/-- DocumentProcessor._clean_chunk_text: collapse every whitespace run to one
space and strip the ends; this equals joining the whitespace-separated words
with single spaces. -/
def cleanChunkText (s : String) : String :=
  String.intercalate " " (splitWsWords s)

/-- Model of the Python str.lower method (used on metric name strings). -/
def pyLower (s : String) : String := ⟨s.data.map Char.toLower⟩

/-! ## Metadata dictionaries

Python dict values occurring in the embedded code. Dictionaries are modelled as
association lists whose lookup takes the first matching entry; assignment
prepends after erasing the key, which matches dict lookup semantics. -/

inductive MetaVal where
  | str (s : String)
  | nat (n : Nat)
  | rat (q : ℚ)
  deriving DecidableEq, Repr

abbrev Meta := List (String × MetaVal)

/-- Dictionary lookup (first matching entry). -/
def lookupStr {α : Type} (l : List (String × α)) (k : String) : Option α :=
  (l.find? (fun p => decide (p.1 = k))).map (fun p => p.2)

/-- Dictionary key removal (pop). -/
def metaErase (m : Meta) (k : String) : Meta :=
  m.filter (fun p => decide (p.1 ≠ k))

/-- Dictionary assignment: set key k to value v. -/
def metaSet (m : Meta) (k : String) (v : MetaVal) : Meta :=
  (k, v) :: metaErase m k

/-- Python dict merge as in a spread of extra over base: entries of extra
override entries of base. -/
def metaMerge (base extra : Meta) : Meta :=
  extra.foldl (fun acc p => metaSet acc p.1 p.2) base

/-! ## Vectors and scoring

Rational arithmetic is written with kernel-computable wrappers around mkRat
(the standard rational operations of the library are irreducible and block
evaluation of concrete instances); the theorems ratMul_eq, ratAdd_eq,
ratSub_eq, ratDiv_eq and ratAbs_eq below prove the wrappers equal to the
standard field operations of the rationals. -/

abbrev Vec := List ℚ

def ratMul (a b : ℚ) : ℚ := mkRat (a.num * b.num) (a.den * b.den)

def ratAdd (a b : ℚ) : ℚ := mkRat (a.num * b.den + b.num * a.den) (a.den * b.den)

def ratSub (a b : ℚ) : ℚ := mkRat (a.num * b.den - b.num * a.den) (a.den * b.den)

def ratInv (a : ℚ) : ℚ :=
  if a.num < 0 then mkRat (-(a.den : Int)) a.num.natAbs else mkRat a.den a.num.natAbs

def ratDiv (a b : ℚ) : ℚ := ratMul a (ratInv b)

def ratAbs (a : ℚ) : ℚ := mkRat a.num.natAbs a.den

def sumQ (l : List ℚ) : ℚ := l.foldr ratAdd 0

/-- Dot product; zipWith truncates to the shorter list, as numpy would reject
mismatched shapes but no embedded theorem evaluates mismatched queries. -/
def dotQ (u v : Vec) : ℚ := sumQ (List.zipWith ratMul u v)

/-- Integer-part square root by linear search; exact on perfect squares. -/
def natSqrtAux (n : Nat) : Nat → Nat
  | 0 => 0
  | k + 1 => if (k + 1) * (k + 1) ≤ n then k + 1 else natSqrtAux n k

def natSqrtF (n : Nat) : Nat := natSqrtAux n n

/-- Square root on the rationals, exact on perfect squares (model of the
floating point square root used by the vector backend). -/
def ratSqrtF (q : ℚ) : ℚ := ratDiv (natSqrtF q.num.toNat : ℚ) (natSqrtF q.den : ℚ)

/-- Cosine similarity as computed by the Qdrant backend: dot product of the
normalised vectors.  Division by zero yields zero in the rationals. -/
def cosSim (u v : Vec) : ℚ :=
  ratDiv (dotQ u v) (ratMul (ratSqrtF (dotQ u u)) (ratSqrtF (dotQ v v)))

/-- Euclidean distance (lower is better for this metric). -/
def euclidDist (u v : Vec) : ℚ :=
  ratSqrtF (sumQ ((List.zipWith ratSub u v).map (fun x => ratMul x x)))

/-- Manhattan distance (lower is better for this metric). -/
def manhattanDist (u v : Vec) : ℚ :=
  sumQ ((List.zipWith ratSub u v).map ratAbs)

/-! ## Qdrant in-memory client model -/

/-- The qdrant_client.models.Distance values used by the repository. -/
inductive QDistance where
  | cosine
  | euclid
  | dot
  | manhattan
  deriving DecidableEq, Repr

structure QdrantPoint where
  id : Nat
  vector : Vec
  payload : Meta
  deriving DecidableEq, Repr

/-- A Qdrant collection: fixed vector size, fixed distance, stored points. -/
structure QdrantCollection where
  size : Nat
  distance : QDistance
  points : List QdrantPoint
  deriving DecidableEq, Repr

/-- Score of a stored vector against the query under the collection distance. -/
def qScore (d : QDistance) (q v : Vec) : ℚ :=
  match d with
  | .cosine => cosSim q v
  | .dot => dotQ q v
  | .euclid => euclidDist q v
  | .manhattan => manhattanDist q v

/-- Ordering convention of each distance: similarity metrics rank descending,
distance metrics rank ascending. -/
def higherIsBetter (d : QDistance) : Bool :=
  match d with
  | .cosine => true
  | .dot => true
  | .euclid => false
  | .manhattan => false

/-- A query hit: point id, payload and score, as returned by query_points. -/
structure ScoredPoint where
  id : Nat
  payload : Meta
  score : ℚ
  deriving DecidableEq, Repr

/-- Best-first order on hits for a given collection distance. -/
def hitRank (d : QDistance) (a b : ScoredPoint) : Prop :=
  if higherIsBetter d then b.score ≤ a.score else a.score ≤ b.score

instance (d : QDistance) : DecidableRel (hitRank d) := fun a b => by
  unfold hitRank
  infer_instance

instance (d : QDistance) : IsTotal ScoredPoint (hitRank d) :=
  ⟨fun a b => by
    unfold hitRank
    cases hd : higherIsBetter d <;> simp <;> exact le_total _ _⟩

instance (d : QDistance) : IsTrans ScoredPoint (hitRank d) :=
  ⟨fun a b c h1 h2 => by
    unfold hitRank at h1 h2 ⊢
    cases hd : higherIsBetter d <;> simp [hd] at h1 h2 ⊢ <;> linarith⟩

/-- Errors surfaced by the embedded vector database operations. -/
inductive VdbError where
  | dimensionMismatch
  deriving DecidableEq, Repr

/-- Qdrant upsert: rejects a vector whose length differs from the collection
size, otherwise replaces any point with the same id and appends the point. -/
def qdrantUpsert (c : QdrantCollection) (p : QdrantPoint) :
    Option VdbError × QdrantCollection :=
  if p.vector.length = c.size then
    (none, ⟨c.size, c.distance, c.points.filter (fun q => decide (q.id ≠ p.id)) ++ [p]⟩)
  else
    (some .dimensionMismatch, c)

/-- Qdrant query_points: score every stored point against the query under the
collection distance, order best-first, truncate to the limit. -/
def qdrantQueryPoints (c : QdrantCollection) (q : Vec) (limit : Nat) :
    List ScoredPoint :=
  (List.insertionSort (hitRank c.distance)
    (c.points.map (fun p => ⟨p.id, p.payload, qScore c.distance q p.vector⟩))).take limit

/-! ## VectorDatabase (aimakerspace/vectordatabase.py) -/

/-- DistanceMeasure enumeration of the repository. -/
inductive DistanceMeasure where
  | COSINE
  | EUCLIDEAN
  | DOT_PRODUCT
  | MANHATTAN
  deriving DecidableEq, Repr

/-- QDRANT_DISTANCE_MAP. -/
def qdrantDistanceMap : DistanceMeasure → QDistance
  | .COSINE => .cosine
  | .EUCLIDEAN => .euclid
  | .DOT_PRODUCT => .dot
  | .MANHATTAN => .manhattan

/-- The distance_measure argument of search, a union of a string, the enum, and
a callable; the callable body is irrelevant because the source never invokes
it. -/
inductive MetricArg where
  | name (s : String)
  | enum (m : DistanceMeasure)
  | fn
  deriving DecidableEq, Repr

/-- DistanceMeasure(value) construction from a string value. -/
def distanceMeasureOfString? (s : String) : Option DistanceMeasure :=
  if s = "cosine" then some .COSINE
  else if s = "euclidean" then some .EUCLIDEAN
  else if s = "dot_product" then some .DOT_PRODUCT
  else if s = "manhattan" then some .MANHATTAN
  else none

/-- VectorDatabase._get_qdrant_distance: callables and unknown strings resolve
silently to cosine (the except ValueError branch of the source). -/
def getQdrantDistance (dm : MetricArg) : QDistance :=
  match dm with
  | .fn => .cosine
  | .enum m => qdrantDistanceMap m
  | .name s =>
      match distanceMeasureOfString? (pyLower s) with
      | some m => qdrantDistanceMap m
      | none => .cosine

/-- State of a VectorDatabase instance: the optional collection (None until
_collection_created), the key-to-id and id-to-key dictionaries and the id
counter.  The embedding model member is passed as a function argument where
used. -/
structure VectorDatabase where
  collection : Option QdrantCollection
  keyToId : List (String × Nat)
  idToKey : List (Nat × String)
  nextId : Nat
  deriving DecidableEq, Repr

def VectorDatabase.empty : VectorDatabase := ⟨none, [], [], 0⟩

/-- Stored points of the database (empty while no collection exists). -/
def VectorDatabase.points (db : VectorDatabase) : List QdrantPoint :=
  match db.collection with
  | none => []
  | some c => c.points

/-- VectorDatabase._ensure_collection: create the collection on first use with
the given vector size and distance (insert always passes the default cosine). -/
def ensureCollection (db : VectorDatabase) (vectorSize : Nat)
    (dm : DistanceMeasure) : VectorDatabase :=
  match db.collection with
  | some _ => db
  | none => ⟨some ⟨vectorSize, qdrantDistanceMap dm, []⟩, db.keyToId, db.idToKey, db.nextId⟩

/-- VectorDatabase.insert: ensure the collection exists sized by this vector,
allocate the next integer id, record the key maps, store the key inside the
payload under _key, and upsert the point.  The key maps and the id counter are
updated before the upsert, exactly as in the source, so they remain updated
when the upsert rejects a mismatched dimension. -/
def VectorDatabase.insert (db : VectorDatabase) (key : String) (vector : Vec)
    (metadata : Meta) : Option VdbError × VectorDatabase :=
  let db1 := ensureCollection db vector.length .COSINE
  let pointId := db1.nextId
  let keyToId := (key, pointId) :: db1.keyToId
  let idToKey := (pointId, key) :: db1.idToKey
  let payload := metaSet metadata "_key" (.str key)
  match db1.collection with
  | none => (some .dimensionMismatch, db1)
  | some c =>
      match qdrantUpsert c ⟨pointId, vector, payload⟩ with
      | (none, c2) => (none, ⟨some c2, keyToId, idToKey, pointId + 1⟩)
      | (some e, c2) => (some e, ⟨some c2, keyToId, idToKey, pointId + 1⟩)

/-- Key of a hit as computed by search: the _key payload field when it is a
string, otherwise the print of the integer id. -/
def payloadHitKey (payload : Meta) (id : Nat) : String :=
  match lookupStr payload "_key" with
  | some (MetaVal.str s) => s
  | _ => toString id

/-- VectorDatabase.search.  The distance_measure argument is accepted but never
used by the source: the query runs against the collection with its configured
distance (fixed at creation) and _get_qdrant_distance is never called. -/
def VectorDatabase.search (db : VectorDatabase) (queryVector : Vec) (k : Nat)
    (dm : MetricArg) : List (String × ℚ) :=
  match db.collection with
  | none => []
  | some c =>
      (qdrantQueryPoints c queryVector k).map
        (fun hit => (payloadHitKey hit.payload hit.id, hit.score))

/-- VectorDatabase.search_with_metadata: embed the query text, search with full
payload, strip the internal _key field and re-expose it as key next to the
similarity_score field. -/
def VectorDatabase.searchWithMetadata (db : VectorDatabase)
    (embed : String → Vec) (queryText : String) (k : Nat) (dm : MetricArg) :
    List Meta :=
  match db.collection with
  | none => []
  | some c =>
      (qdrantQueryPoints c (embed queryText) k).map
        (fun hit =>
          let md := metaErase hit.payload "_key"
          let key := payloadHitKey hit.payload hit.id
          metaSet (metaSet md "similarity_score" (.rat hit.score)) "key" (.str key))

/-- VectorDatabase.retrieve_from_key: resolve the key through the key-to-id
dictionary, then fetch the vector of the point with that id. -/
def VectorDatabase.retrieveFromKey (db : VectorDatabase) (key : String) :
    Option Vec :=
  match lookupStr db.keyToId key with
  | none => none
  | some pointId =>
      match db.collection with
      | none => none
      | some c => (c.points.find? (fun p => decide (p.id = pointId))).map (fun p => p.vector)

/-- VectorDatabase.get_metadata: resolve the key, fetch the payload of that
point and pop the internal _key field; empty dictionary when not found. -/
def VectorDatabase.getMetadata (db : VectorDatabase) (key : String) : Meta :=
  match lookupStr db.keyToId key with
  | none => []
  | some pointId =>
      match db.collection with
      | none => []
      | some c =>
          match c.points.find? (fun p => decide (p.id = pointId)) with
          | none => []
          | some p => metaErase p.payload "_key"

/-! ## Wellformedness predicates for the vector database -/

/-- Every stored point id is below the id counter (holds for every database
reachable from empty; insert allocates fresh ids). -/
def VectorDatabase.WF (db : VectorDatabase) : Prop :=
  ∀ p ∈ db.points, p.id < db.nextId

/-- The collection, if any, accepts vectors of length n. -/
def VectorDatabase.dimOk (db : VectorDatabase) (n : Nat) : Prop :=
  ∀ c, db.collection = some c → c.size = n

/-- All stored vectors have the dimensionality fixed on the collection. -/
def VectorDatabase.dimsInv (db : VectorDatabase) : Prop :=
  ∀ c, db.collection = some c → ∀ p ∈ c.points, p.vector.length = c.size

/-! ## Chunker (api/rag_lightweight.py, DocumentProcessor._create_chunks) -/

/-- External tokenizer collaborator (tiktoken in the source). -/
structure Tokenizer where
  encode : String → List Nat
  decode : List Nat → String

/-- Window slice of the token list. -/
def windowChunk (tok : Tokenizer) (tokens : List Nat) (w : Nat × Nat) : String :=
  cleanChunkText (tok.decode ((tokens.drop w.1).take (w.2 - w.1)))

/-- The while loop of _create_chunks.  The fuel argument models the explicit
iteration bound (iteration_count below max_iterations).  The Python window
start after a step is the signed value e - overlap; the source breaks when it
is at least e (equivalently overlap = 0), below zero (equivalently e < overlap)
or at least the token count, so those conditions are tested on naturals here. -/
def chunkLoopGo (tok : Tokenizer) (tokens : List Nat) (chunkSize overlap : Nat) :
    Nat → Nat → List String
  | _, 0 => []
  | start, fuel + 1 =>
      if start < tokens.length then
        let e := min (start + chunkSize) tokens.length
        let chunkText := windowChunk tok tokens (start, e)
        let rest :=
          if overlap = 0 ∨ e < overlap then []
          else if tokens.length ≤ e - overlap then []
          else chunkLoopGo tok tokens chunkSize overlap (e - overlap) fuel
        if chunkText = "" then rest else chunkText :: rest
      else []

/-- The same loop recording the scanned windows instead of the emitted text. -/
def chunkWindowsGo (tokensLen chunkSize overlap : Nat) :
    Nat → Nat → List (Nat × Nat)
  | _, 0 => []
  | start, fuel + 1 =>
      if start < tokensLen then
        let e := min (start + chunkSize) tokensLen
        (start, e) ::
          (if overlap = 0 ∨ e < overlap then []
           else if tokensLen ≤ e - overlap then []
           else chunkWindowsGo tokensLen chunkSize overlap (e - overlap) fuel)
      else []

/-- Token list actually chunked: the encoding, truncated to 100000 tokens. -/
def truncTokens (tok : Tokenizer) (text : String) : List Nat :=
  let tokens := tok.encode text
  if tokens.length > 100000 then tokens.take 100000 else tokens

/-- The explicit max_iterations bound of the source. -/
def chunkMaxIter (tokensLen chunkSize overlap : Nat) : Nat :=
  tokensLen / (chunkSize - overlap) + 10

/-- All windows scanned by the loop from start zero with the full bound. -/
def chunkWindows (tokensLen chunkSize overlap : Nat) : List (Nat × Nat) :=
  chunkWindowsGo tokensLen chunkSize overlap 0 (chunkMaxIter tokensLen chunkSize overlap)

/-- DocumentProcessor._create_chunks: empty input gives no chunks, otherwise
tokenize, truncate defensively, and run the bounded sliding-window loop.  The
except branch falling back to _create_simple_chunks is unreachable in this
pure model (it guards tokenizer exceptions). -/
def createChunks (tok : Tokenizer) (text : String) (chunkSize overlap : Nat) :
    List String :=
  if pyStrip text = "" then []
  else
    let tokens := truncTokens tok text
    chunkLoopGo tok tokens chunkSize overlap 0
      (chunkMaxIter tokens.length chunkSize overlap)

/-! ## Extractor heuristic (DocumentProcessor._extract_text_pdf)

The two extraction backends are external; the embedded function receives their
results and picks one by the length of the stripped text of each. -/

def extractTextPdf (textPypdf2 textPdfplumber : String) : String :=
  if (pyStrip textPypdf2).length < (pyStrip textPdfplumber).length then textPdfplumber
  else textPypdf2

/-! ## RAG engine (api/rag_lightweight.py, RAGSystem) -/

structure ChatMessage where
  role : String
  content : String
  deriving DecidableEq, Repr

/-- Document bookkeeping stored in RAGSystem.documents. -/
structure RAGDocInfo where
  chunkCount : Nat
  metadata : Meta
  deriving DecidableEq, Repr

/-- State of a RAGSystem instance.  The embedding and chat model members are
network collaborators passed as function arguments where used. -/
structure RAGSystem where
  apiKey : String
  modelName : String
  vectorDb : VectorDatabase
  documents : List (String × RAGDocInfo)
  deriving DecidableEq, Repr

def RAGSystem.new (apiKey modelName : String) : RAGSystem :=
  ⟨apiKey, modelName, .empty, []⟩

/-- The topic explorer system message set in the RAGSystem constructor (the
leading indentation of the Python triple-quoted literal is not reproduced). -/
def topicExplorerSystemMessage : String :=
  "\nYou are an educational study companion for middle school students learning Math, Science, or US History. \nYour role is to help students understand topics from their class materials in a clear, friendly, and encouraging way. \nAlways explain ideas at the level of an elementary or middle school student, avoiding overly complex words. \n\nWhen answering a question, always follow this structure:\n1. **Explanation:** a simple, clear explanation based on the provided context, using age-appropriate language.\n2. **Real-Life Example:** show how the idea connects to something in the student\x27s everyday life.\n3. **Practice Activity:** create a short, fun challenge (problem to solve, small writing task, or drawing prompt) that helps the student practice.\n\nDo not give long essays. Be concise, supportive, and engaging, like a tutor who makes learning fun.\n"

/-- The plain RAG system message set in the RAGSystem constructor. -/
def ragSystemMessage : String :=
  "\nYou are a helpful assistant that answers questions based on provided context.\n"

/-- The topic-explorer user prompt assembled by query_documents. -/
def topicExplorerPrompt (query context : String) : String :=
  "You are a helpful and engaging study assistant for middle school students.\nYou will receive:\n1. A student question\n2. Context extracted from their study material (PDF, Word, or PowerPoint)\n\nYour task:\n- Use the context when possible, but also explain in a clear, simple way.\n- Always return the answer in **three structured sections**:\n  1. **Explanation** → Simple, student-friendly explanation of the topic.\n  2. **Real-Life Example** → Show how the concept applies in daily life or something relatable.\n  3. **Practice Activity** → Give a short challenge (question, drawing, or exercise) the student can do to practice.\n\nFormat your answer clearly with section headers.\n\n---\nStudent Question:\n" ++ query ++ "\n\nContext:\n" ++ context ++ "\n\nAnswer:"

/-- The plain RAG user prompt assembled by query_documents. -/
def ragModePrompt (query context : String) : String :=
  "Based on the following context from the uploaded documents, please answer the user\x27s question. If the context doesn\x27t contain enough information to answer the question, please say so.\n\nContext:\n" ++ context ++ "\n\nQuestion: " ++ query ++ "\n\nAnswer:"

/-- The fixed empty-retrieval answer of query_documents. -/
def noRelevantInfoAnswer : String :=
  "I couldn\x27t find any relevant information in the uploaded documents to answer your question."

/-- RAGSystem.search_relevant_chunks: search_with_metadata with the default
cosine distance measure. -/
def RAGSystem.searchRelevantChunks (rag : RAGSystem) (embed : String → Vec)
    (query : String) (k : Nat) : List Meta :=
  rag.vectorDb.searchWithMetadata embed query k (.enum .COSINE)

/-- RAGSystem.query_documents.  The chat collaborator is a function argument;
the second component of the result counts how many times it was invoked, to
state provider-call properties. -/
def RAGSystem.queryDocuments (rag : RAGSystem) (embed : String → Vec)
    (chat : List ChatMessage → String) (query : String) (k : Nat)
    (mode : String) : String × Nat :=
  let relevantChunks := rag.searchRelevantChunks embed query k
  if relevantChunks.isEmpty then
    (noRelevantInfoAnswer, 0)
  else
    let contextParts := relevantChunks.filterMap (fun chunkData =>
      let chunkText := match lookupStr chunkData "chunk_text" with
        | some (MetaVal.str s) => s
        | _ => ""
      if chunkText = "" then none else some chunkText)
    let context := String.intercalate "\n\n" contextParts
    let ragPrompt := if mode = "topic-explorer" then topicExplorerPrompt query context
      else ragModePrompt query context
    let systemMessage := if mode = "topic-explorer" then topicExplorerSystemMessage
      else ragSystemMessage
    (chat [⟨"system", systemMessage⟩, ⟨"user", ragPrompt⟩], 1)

/-- The per-chunk insertion loop of RAGSystem.index_document over the zipped
chunks and embeddings; an insert error aborts the loop (the exception path of
the source) with the vector database mutations made so far. -/
def indexChunkInserts (documentId : String) (metadata : Meta) :
    VectorDatabase → Nat → List (String × Vec) → Option VdbError × VectorDatabase
  | db, _, [] => (none, db)
  | db, i, (chunk, embedding) :: rest =>
      let chunkId := documentId ++ "_chunk_" ++ toString i
      let chunkMetadata :=
        metaMerge [("document_id", .str documentId), ("chunk_index", .nat i),
                   ("chunk_text", .str chunk)] metadata
      match db.insert chunkId embedding chunkMetadata with
      | (some e, db2) => (some e, db2)
      | (none, db2) => indexChunkInserts documentId metadata db2 (i + 1) rest

/-- RAGSystem.index_document: embed all chunks (the embeddings argument is the
result of the external batch embedding call), insert each as a point keyed by
the composite chunk id, then record the document bookkeeping.  On an insert
error the document entry is not recorded and the error propagates. -/
def RAGSystem.indexDocument (rag : RAGSystem) (documentId : String)
    (chunks : List String) (embeddings : List Vec) (metadata : Meta) :
    Option VdbError × RAGSystem :=
  match indexChunkInserts documentId metadata rag.vectorDb 0 (chunks.zip embeddings) with
  | (some e, db2) => (some e, ⟨rag.apiKey, rag.modelName, db2, rag.documents⟩)
  | (none, db2) =>
      (none, ⟨rag.apiKey, rag.modelName, db2,
        (documentId, ⟨chunks.length, metadata⟩)
          :: rag.documents.filter (fun p => decide (p.1 ≠ documentId))⟩)

/-! ## Tenant registry and session cleanup (rag_lightweight.py / app.py) -/

abbrev RagRegistry := List (String × RAGSystem)

/-- get_or_create_rag_system over the module-level rag_systems dictionary:
return the existing engine, otherwise construct one with the given key and
model and register it. -/
def getOrCreateRagSystem (reg : RagRegistry) (sessionId apiKey modelName : String) :
    RagRegistry × RAGSystem :=
  match lookupStr reg sessionId with
  | some rag => (reg, rag)
  | none =>
      let rag := RAGSystem.new apiKey modelName
      ((sessionId, rag) :: reg, rag)

/-- Session state relevant to cleanup; last access time in minutes.  The other
session fields (auth type, api key, provider, counters) are never read by
cleanup_inactive_conversations and are omitted. -/
structure SessionData where
  lastAccess : Nat
  deriving DecidableEq, Repr

/-- The module-level mutable state of api/app.py touched by cleanup, plus the
module-level rag_systems registry of rag_lightweight.py. -/
structure AppState where
  sessions : List (String × SessionData)
  conversations : List (String × Meta)
  ragSystems : RagRegistry
  deriving DecidableEq, Repr

/-- cleanup_inactive_conversations: collect the sessions whose inactivity
exceeds the timeout, then delete their conversation maps and session entries.
The rag_systems registry is not referenced by the source function and is left
untouched. -/
def cleanupInactiveConversations (sessionTimeoutMinutes currentTime : Nat)
    (st : AppState) : AppState :=
  let inactiveSessions :=
    (st.sessions.filter
      (fun p => decide (sessionTimeoutMinutes < currentTime - p.2.lastAccess))).map
      (fun p => p.1)
  ⟨st.sessions.filter (fun p => decide (p.1 ∉ inactiveSessions)),
   st.conversations.filter (fun p => decide (p.1 ∉ inactiveSessions)),
   st.ragSystems⟩

/-! ## Expected shape of the records produced by index_document -/

/-- The points appended by the insertion loop of index_document, starting at a
given point id and chunk ordinal. -/
def expectedRecords (documentId : String) (metadata : Meta) :
    Nat → Nat → List (String × Vec) → List QdrantPoint
  | _, _, [] => []
  | pid, i, (chunk, embedding) :: rest =>
      ⟨pid, embedding,
        metaSet
          (metaMerge [("document_id", .str documentId), ("chunk_index", .nat i),
                      ("chunk_text", .str chunk)] metadata)
          "_key" (.str (documentId ++ "_chunk_" ++ toString i))⟩
        :: expectedRecords documentId metadata (pid + 1) (i + 1) rest

/-! ## Concrete inputs used by witnesses and counterexamples -/

/-- A character-level tokenizer instance for the chunking theorems. -/
def charTok : Tokenizer :=
  ⟨fun s => s.data.map Char.toNat, fun ts => ⟨ts.map Char.ofNat⟩⟩

/-- A database with two unit-incomparable vectors: key a is the cosine top hit
for the query vector (1, 0) while key b is the Euclidean-closest one. -/
def dbTwo : VectorDatabase :=
  ((VectorDatabase.empty.insert "a" [10, 0] []).2.insert "b" [0, 1] []).2

/-- A fresh engine for the registry and cleanup theorems. -/
def ragSystemS : RAGSystem := RAGSystem.new "key" "gpt-4o-mini"

/-- One expired session owning a conversation map and a registered engine. -/
def appStateOne : AppState :=
  ⟨[("s", ⟨0⟩)], [("s", [])], [("s", ragSystemS)]⟩

/-! ## Dictionary lemmas -/

theorem lookupStr_cons {α : Type} (k k2 : String) (v : α) (l : List (String × α)) :
    lookupStr ((k, v) :: l) k2 = if k = k2 then some v else lookupStr l k2 := by
  by_cases h : k = k2 <;> simp [lookupStr, List.find?_cons, h]

theorem metaErase_cons (pk : String) (pv : MetaVal) (rest : Meta) (k : String) :
    metaErase ((pk, pv) :: rest) k
      = if pk = k then metaErase rest k else (pk, pv) :: metaErase rest k := by
  by_cases hp : pk = k <;> simp [metaErase, List.filter_cons, hp]

theorem lookupStr_metaErase_ne (m : Meta) (k k2 : String) (h : k2 ≠ k) :
    lookupStr (metaErase m k) k2 = lookupStr m k2 := by
  induction m with
  | nil => rfl
  | cons p rest ih =>
      rcases p with ⟨pk, pv⟩
      rw [metaErase_cons]
      by_cases hp : pk = k
      · have hne : ¬ pk = k2 := by
          rw [hp]
          exact fun hc => h hc.symm
        rw [if_pos hp, ih, lookupStr_cons, if_neg hne]
      · rw [if_neg hp, lookupStr_cons, lookupStr_cons, ih]

theorem lookupStr_metaSet_self (m : Meta) (k : String) (v : MetaVal) :
    lookupStr (metaSet m k v) k = some v := by
  simp [metaSet, lookupStr_cons]

theorem lookupStr_metaSet_ne (m : Meta) (k k2 : String) (v : MetaVal) (h : k2 ≠ k) :
    lookupStr (metaSet m k v) k2 = lookupStr m k2 := by
  have hne : k ≠ k2 := fun hc => h hc.symm
  simp [metaSet, lookupStr_cons, hne, lookupStr_metaErase_ne m k k2 h]

theorem lookupStr_metaMerge_absent (base extra : Meta) (k : String)
    (h : ∀ p ∈ extra, p.1 ≠ k) :
    lookupStr (metaMerge base extra) k = lookupStr base k := by
  induction extra generalizing base with
  | nil => rfl
  | cons p rest ih =>
      have h1 : p.1 ≠ k := h p (List.mem_cons_self p rest)
      have h2 : ∀ q ∈ rest, q.1 ≠ k := fun q hq => h q (List.mem_cons_of_mem p hq)
      have := ih (metaSet base p.1 p.2) h2
      calc lookupStr (metaMerge base (p :: rest)) k
      _ = lookupStr (metaMerge (metaSet base p.1 p.2) rest) k := rfl
      _ = lookupStr (metaSet base p.1 p.2) k := this
      _ = lookupStr base k := lookupStr_metaSet_ne base p.1 k p.2 (fun hc => h1 hc.symm)

theorem metaErase_metaSet (m : Meta) (k : String) (v : MetaVal) :
    metaErase (metaSet m k v) k = metaErase m k := by
  simp [metaSet, metaErase, List.filter_cons, List.filter_filter]

theorem lookupStr_eq_none_iff {α : Type} (l : List (String × α)) (k : String) :
    lookupStr l k = none ↔ ∀ p ∈ l, p.1 ≠ k := by
  constructor
  · intro h p hp
    have hfind : l.find? (fun p => decide (p.1 = k)) = none := by
      simpa [lookupStr] using h
    simpa using List.find?_eq_none.mp hfind p hp
  · intro h
    have hfind : l.find? (fun p => decide (p.1 = k)) = none :=
      List.find?_eq_none.mpr (fun p hp => by simpa using h p hp)
    simp [lookupStr, hfind]

/-! ## find? over append -/

theorem find?_append_of_none {α : Type} (p : α → Bool) (l1 l2 : List α)
    (h : l1.find? p = none) : (l1 ++ l2).find? p = l2.find? p := by
  induction l1 with
  | nil => rfl
  | cons a rest ih =>
      rw [List.find?_cons] at h
      rcases hpa : p a with _ | _
      · rw [List.cons_append, List.find?_cons, hpa]
        exact ih (by rwa [hpa] at h)
      · rw [hpa] at h
        exact absurd h (by simp)

/-! ## Insert characterisation -/

theorem insert_ok_none (db : VectorDatabase) (k : String) (v : Vec) (m : Meta)
    (hc : db.collection = none) :
    db.insert k v m
      = (none, ⟨some ⟨v.length, .cosine, [⟨db.nextId, v, metaSet m "_key" (.str k)⟩]⟩,
          (k, db.nextId) :: db.keyToId, (db.nextId, k) :: db.idToKey, db.nextId + 1⟩) := by
  simp [VectorDatabase.insert, ensureCollection, hc, qdrantUpsert, qdrantDistanceMap]

theorem insert_ok_some (db : VectorDatabase) (k : String) (v : Vec) (m : Meta)
    (c : QdrantCollection) (hc : db.collection = some c) (hsz : c.size = v.length)
    (hwf : db.WF) :
    db.insert k v m
      = (none, ⟨some ⟨c.size, c.distance,
            c.points ++ [⟨db.nextId, v, metaSet m "_key" (.str k)⟩]⟩,
          (k, db.nextId) :: db.keyToId, (db.nextId, k) :: db.idToKey, db.nextId + 1⟩) := by
  have hids : ∀ a ∈ c.points, ¬ a.id = db.nextId := by
    intro a ha
    have ham : a ∈ db.points := by
      simp [VectorDatabase.points, hc]
      exact ha
    have := hwf a ham
    omega
  simp [VectorDatabase.insert, ensureCollection, hc, qdrantUpsert, hsz.symm]
  exact hids

theorem insert_fail (db : VectorDatabase) (k : String) (v : Vec) (m : Meta)
    (c : QdrantCollection) (hc : db.collection = some c) (hne : c.size ≠ v.length) :
    db.insert k v m
      = (some .dimensionMismatch, ⟨some c,
          (k, db.nextId) :: db.keyToId, (db.nextId, k) :: db.idToKey, db.nextId + 1⟩) := by
  have hx : ¬ v.length = c.size := fun h => hne h.symm
  simp [VectorDatabase.insert, ensureCollection, hc, qdrantUpsert, hx]

theorem insert_ok (db : VectorDatabase) (k : String) (v : Vec) (m : Meta)
    (hwf : db.WF) (hdim : db.dimOk v.length) :
    (db.insert k v m).1 = none ∧
    (db.insert k v m).2.points
      = db.points ++ [⟨db.nextId, v, metaSet m "_key" (.str k)⟩] ∧
    (db.insert k v m).2.keyToId = (k, db.nextId) :: db.keyToId ∧
    (db.insert k v m).2.nextId = db.nextId + 1 ∧
    (db.insert k v m).2.WF ∧
    (db.insert k v m).2.dimOk v.length := by
  rcases hc : db.collection with _ | c
  · rw [insert_ok_none db k v m hc]
    refine ⟨rfl, ?_, rfl, rfl, ?_, ?_⟩
    · simp [VectorDatabase.points, hc]
    · intro p hp
      simp [VectorDatabase.points] at hp
      show p.id < db.nextId + 1
      subst hp
      show db.nextId < db.nextId + 1
      omega
    · intro c2 hc2
      simp at hc2
      subst hc2
      rfl
  · rw [insert_ok_some db k v m c hc (hdim c hc) hwf]
    refine ⟨rfl, ?_, rfl, rfl, ?_, ?_⟩
    · simp [VectorDatabase.points, hc]
    · intro p hp
      simp [VectorDatabase.points] at hp
      show p.id < db.nextId + 1
      rcases hp with hp | hp
      · have hmem : p ∈ db.points := by
          simp [VectorDatabase.points, hc]
          exact hp
        have := hwf p hmem
        omega
      · subst hp
        show db.nextId < db.nextId + 1
        omega
    · intro c2 hc2
      simp at hc2
      subst hc2
      show c.size = v.length
      exact hdim c hc

theorem insert_dimsInv (db : VectorDatabase) (k : String) (v : Vec) (m : Meta)
    (h : db.dimsInv) : (db.insert k v m).2.dimsInv := by
  rcases hc : db.collection with _ | c
  · rw [insert_ok_none db k v m hc]
    intro c2 hc2 p hp
    simp at hc2
    subst hc2
    simp at hp
    simp [hp]
  · by_cases hsz : v.length = c.size
    · intro c2 hc2 p hp
      simp [VectorDatabase.insert, ensureCollection, hc, qdrantUpsert, hsz] at hc2
      subst hc2
      rcases List.mem_append.mp hp with hp | hp
      · exact h c hc p (List.mem_of_mem_filter hp)
      · simp at hp
        subst hp
        show v.length = c.size
        exact hsz
    · have hne : c.size ≠ v.length := fun hx => hsz hx.symm
      rw [insert_fail db k v m c hc hne]
      intro c2 hc2 p hp
      simp at hc2
      subst hc2
      exact h c hc p hp

/-! ## Search ordering lemmas -/

theorem qdrantQueryPoints_sorted (c : QdrantCollection) (q : Vec) (limit : Nat) :
    List.Sorted (hitRank c.distance) (qdrantQueryPoints c q limit) := by
  have h1 := List.sorted_insertionSort (hitRank c.distance)
    (c.points.map (fun p => ⟨p.id, p.payload, qScore c.distance q p.vector⟩))
  exact h1.sublist (List.take_sublist _ _)

theorem search_scores (db : VectorDatabase) (q : Vec) (k : Nat) (dm : MetricArg)
    (c : QdrantCollection) (hc : db.collection = some c) :
    (db.search q k dm).map Prod.snd
      = (qdrantQueryPoints c q k).map ScoredPoint.score := by
  simp [VectorDatabase.search, hc, List.map_map]

/-- C1 (amended): the distance_measure argument of search is ignored; search
always ranks by the distance configured on the collection, which is cosine for
every collection this code creates, so for every requested metric the returned
(key, score) list is sorted by descending cosine score, and the result list is
the same as for the default cosine argument. -/
theorem c1_search_sorted_by_collection_cosine (db : VectorDatabase) (q : Vec)
    (k : Nat) (dm : MetricArg)
    (hcos : db.collection.all (fun c => decide (c.distance = QDistance.cosine)) = true) :
    List.Sorted (fun a b : ℚ => b ≤ a) ((db.search q k dm).map Prod.snd) ∧
    db.search q k dm = db.search q k (.enum .COSINE) := by
  refine ⟨?_, rfl⟩
  rcases hc : db.collection with _ | c
  · simp [VectorDatabase.search, hc]
  · rw [hc] at hcos
    simp [Option.all] at hcos
    rw [search_scores db q k dm c hc]
    have hs := qdrantQueryPoints_sorted c q k
    rw [hcos] at hs
    refine hs.map _ (fun a b hr => ?_)
    simpa [hitRank, higherIsBetter] using hr

/-- C1 witness: the amended theorem applied at a concrete two-vector index with
the Manhattan metric requested. -/
theorem c1_witness :
    (dbTwo.collection.all (fun c => decide (c.distance = QDistance.cosine)) = true) ∧
    (List.Sorted (fun a b : ℚ => b ≤ a)
        ((dbTwo.search [1, 0] 2 (.enum .MANHATTAN)).map Prod.snd) ∧
      dbTwo.search [1, 0] 2 (.enum .MANHATTAN)
        = dbTwo.search [1, 0] 2 (.enum .COSINE)) :=
  ⟨by decide, c1_search_sorted_by_collection_cosine dbTwo [1, 0] 2 (.enum .MANHATTAN) (by decide)⟩

/-- C1 counterexample: on an index with two vectors, requesting the Euclidean
metric returns the cosine-ranked list: the scores are not ascending as the
Euclidean convention requires, and the key order disagrees with the Euclidean
distance order. -/
theorem c1_counterexample :
    2 ≤ dbTwo.points.length ∧
    dbTwo.search [1, 0] 2 (.enum .EUCLIDEAN) = [("a", 1), ("b", 0)] ∧
    ¬ List.Sorted (fun a b : ℚ => a ≤ b)
        ((dbTwo.search [1, 0] 2 (.enum .EUCLIDEAN)).map Prod.snd) ∧
    euclidDist [1, 0] [0, 1] < euclidDist [1, 0] [10, 0] := by
  decide

/-- C2 (amended): an unknown metric identifier is silently resolved to cosine
by _get_qdrant_distance, no error is raised, and search returns exactly the
cosine-default result because it ignores the distance_measure argument. -/
theorem c2_unknown_metric_silently_cosine (s : String)
    (h : distanceMeasureOfString? (pyLower s) = none) (db : VectorDatabase)
    (q : Vec) (k : Nat) :
    getQdrantDistance (.name s) = .cosine ∧
    db.search q k (.name s) = db.search q k (.enum .COSINE) := by
  refine ⟨?_, rfl⟩
  simp [getQdrantDistance, h]

/-- C2 witness: the amended theorem at the unknown identifier banana. -/
theorem c2_witness :
    distanceMeasureOfString? (pyLower "banana") = none ∧
    (getQdrantDistance (.name "banana") = .cosine ∧
      dbTwo.search [1, 0] 2 (.name "banana") = dbTwo.search [1, 0] 2 (.enum .COSINE)) :=
  ⟨by decide, c2_unknown_metric_silently_cosine "banana" (by decide) dbTwo [1, 0] 2⟩

/-- C2 counterexample: search with the unknown metric banana does not fail in
any way: it returns a normal, non-empty result list, identical to the silent
cosine default, refuting that an UnknownMetric failure occurs. -/
theorem c2_counterexample :
    getQdrantDistance (.name "banana") = .cosine ∧
    dbTwo.search [1, 0] 2 (.name "banana") = [("a", 1), ("b", 0)] ∧
    dbTwo.search [1, 0] 2 (.name "banana") = dbTwo.search [1, 0] 2 (.enum .COSINE) := by
  decide

/-- C5: the first insert creates the collection with the dimensionality of the
inserted vector; a later insert whose vector length differs from the collection
size fails with a dimension mismatch and stores nothing, and the uniform
dimension invariant of the stored vectors is preserved by every insert. -/
theorem c5_dimension_fixed_on_first_insert (db : VectorDatabase) (k : String)
    (v : Vec) (m : Meta) :
    (db.collection = none →
       (db.insert k v m).1 = none ∧
       (db.insert k v m).2.collection
         = some ⟨v.length, .cosine, [⟨db.nextId, v, metaSet m "_key" (.str k)⟩]⟩) ∧
    (∀ c, db.collection = some c → c.size ≠ v.length →
       (db.insert k v m).1 = some .dimensionMismatch ∧
       (db.insert k v m).2.points = db.points) ∧
    (db.dimsInv → (db.insert k v m).2.dimsInv) := by
  refine ⟨?_, ?_, insert_dimsInv db k v m⟩
  · intro hc
    rw [insert_ok_none db k v m hc]
    exact ⟨rfl, rfl⟩
  · intro c hc hne
    rw [insert_fail db k v m c hc hne]
    refine ⟨rfl, ?_⟩
    simp [VectorDatabase.points, hc]

/-- C5 witness: a first insert of a two-dimensional vector fixes size two, and
a second insert of a one-dimensional vector is rejected without storing. -/
theorem c5_witness :
    ((VectorDatabase.empty.insert "a" [(1 : ℚ), 0] []).1 = none ∧
      (VectorDatabase.empty.insert "a" [(1 : ℚ), 0] []).2.collection
        = some ⟨2, .cosine, [⟨0, [(1 : ℚ), 0], metaSet [] "_key" (.str "a")⟩]⟩) ∧
    (((VectorDatabase.empty.insert "a" [(1 : ℚ), 0] []).2.insert "b" [(1 : ℚ)] []).1
        = some .dimensionMismatch ∧
      ((VectorDatabase.empty.insert "a" [(1 : ℚ), 0] []).2.insert "b" [(1 : ℚ)] []).2.points
        = (VectorDatabase.empty.insert "a" [(1 : ℚ), 0] []).2.points) := by
  refine ⟨(c5_dimension_fixed_on_first_insert VectorDatabase.empty "a" [(1 : ℚ), 0] []).1 rfl, ?_⟩
  exact (c5_dimension_fixed_on_first_insert
      ((VectorDatabase.empty.insert "a" [(1 : ℚ), 0] []).2) "b" [(1 : ℚ)] []).2.1
    ⟨2, .cosine, [⟨0, [(1 : ℚ), 0], metaSet [] "_key" (.str "a")⟩]⟩ (by decide) (by decide)

/-- C6: query_documents on an engine whose index holds no documents returns the
fixed no-relevant-information answer and performs zero chat model calls, for
every embedding function, chat function, question, k and mode. -/
theorem c6_empty_index_no_llm_call (rag : RAGSystem) (embed : String → Vec)
    (chat : List ChatMessage → String) (query : String) (k : Nat) (mode : String)
    (h : rag.vectorDb.collection = none) :
    rag.queryDocuments embed chat query k mode = (noRelevantInfoAnswer, 0) := by
  simp [RAGSystem.queryDocuments, RAGSystem.searchRelevantChunks,
    VectorDatabase.searchWithMetadata, h]

/-- C6 witness: a fresh engine answers with the fixed string and zero provider
calls. -/
theorem c6_witness :
    (RAGSystem.new "key" "gpt-4o-mini").vectorDb.collection = none ∧
    (RAGSystem.new "key" "gpt-4o-mini").queryDocuments (fun _ => [])
      (fun _ => "llm output") "question" 3 "rag" = (noRelevantInfoAnswer, 0) :=
  ⟨rfl, c6_empty_index_no_llm_call _ _ _ _ _ _ rfl⟩

/-- C8 (amended): PDF extraction returns one of the two strategy results,
namely one whose length after stripping leading and trailing whitespace is
maximal; interior whitespace still counts, and ties keep the PyPDF2 result. -/
theorem c8_pdf_extractor_picks_longer_stripped (t1 t2 : String) :
    (extractTextPdf t1 t2 = t1 ∨ extractTextPdf t1 t2 = t2) ∧
    (pyStrip (extractTextPdf t1 t2)).length
      = max (pyStrip t1).length (pyStrip t2).length := by
  unfold extractTextPdf
  by_cases h : (pyStrip t1).length < (pyStrip t2).length
  · rw [if_pos h]
    exact ⟨Or.inr rfl, (Nat.max_eq_right (Nat.le_of_lt h)).symm⟩
  · rw [if_neg h]
    exact ⟨Or.inl rfl, (Nat.max_eq_left (Nat.le_of_not_lt h)).symm⟩

/-- C8 counterexample: the stripped-length heuristic keeps the PyPDF2 text even
when the pdfplumber text has strictly more non-whitespace characters, because
interior whitespace inflates the stripped length. -/
theorem c8_counterexample :
    extractTextPdf "a   b" "xyz" = "a   b" ∧
    countNonWs "a   b" < countNonWs "xyz" := by
  decide

/-- C9: when a session id is already registered, get_or_create_rag_system
returns the registry unchanged together with the existing engine, for every
api key and model name, so the result is independent of those arguments. -/
theorem c9_existing_engine_independent (reg : RagRegistry) (sessionId : String)
    (rag : RAGSystem) (h : lookupStr reg sessionId = some rag)
    (apiKey1 modelName1 apiKey2 modelName2 : String) :
    getOrCreateRagSystem reg sessionId apiKey1 modelName1 = (reg, rag) ∧
    getOrCreateRagSystem reg sessionId apiKey1 modelName1
      = getOrCreateRagSystem reg sessionId apiKey2 modelName2 := by
  unfold getOrCreateRagSystem
  rw [h]
  exact ⟨rfl, rfl⟩

/-- C9 witness: a registered engine is returned unchanged for two different
credential and model pairs. -/
theorem c9_witness :
    lookupStr [("s", ragSystemS)] "s" = some ragSystemS ∧
    (getOrCreateRagSystem [("s", ragSystemS)] "s" "other-key" "other-model"
        = ([("s", ragSystemS)], ragSystemS) ∧
      getOrCreateRagSystem [("s", ragSystemS)] "s" "other-key" "other-model"
        = getOrCreateRagSystem [("s", ragSystemS)] "s" "third-key" "third-model") :=
  ⟨by decide, c9_existing_engine_independent _ "s" ragSystemS (by decide) _ _ _ _⟩

/-! ## The rational arithmetic wrappers agree with the standard operations -/

theorem ratMul_eq (a b : ℚ) : ratMul a b = a * b := by
  rw [ratMul, Rat.mkRat_eq_div]
  push_cast
  conv_rhs => rw [← Rat.num_div_den a, ← Rat.num_div_den b]
  rw [div_mul_div_comm]

theorem ratAdd_eq (a b : ℚ) : ratAdd a b = a + b := by
  have ha : (a.den : ℚ) ≠ 0 := by exact_mod_cast a.den_nz
  have hb : (b.den : ℚ) ≠ 0 := by exact_mod_cast b.den_nz
  rw [ratAdd, Rat.mkRat_eq_div]
  push_cast
  conv_rhs => rw [← Rat.num_div_den a, ← Rat.num_div_den b]
  rw [div_add_div _ _ ha hb]
  congr 1
  ring

theorem ratSub_eq (a b : ℚ) : ratSub a b = a - b := by
  have ha : (a.den : ℚ) ≠ 0 := by exact_mod_cast a.den_nz
  have hb : (b.den : ℚ) ≠ 0 := by exact_mod_cast b.den_nz
  rw [ratSub, Rat.mkRat_eq_div]
  push_cast
  conv_rhs => rw [← Rat.num_div_den a, ← Rat.num_div_den b]
  rw [div_sub_div _ _ ha hb]
  congr 1
  ring

theorem ratInv_eq (a : ℚ) : ratInv a = a⁻¹ := by
  rw [Rat.inv_def', ratInv]
  by_cases hneg : a.num < 0
  · rw [if_pos hneg, Rat.mkRat_eq_divInt]
    have h1 : a.num = -(a.num.natAbs : ℤ) := by omega
    conv_rhs => rw [h1]
    rw [Rat.divInt_neg]
  · rw [if_neg hneg, Rat.mkRat_eq_divInt]
    have h1 : (a.num.natAbs : ℤ) = a.num := by omega
    rw [h1]

theorem ratDiv_eq (a b : ℚ) : ratDiv a b = a / b := by
  rw [ratDiv, ratMul_eq, ratInv_eq, div_eq_mul_inv]

theorem ratAbs_eq (a : ℚ) : ratAbs a = |a| := by
  unfold ratAbs
  by_cases hneg : a.num < 0
  · have ha : a < 0 := by
      by_contra hle
      push_neg at hle
      exact absurd (Rat.num_nonneg.mpr hle) (by omega)
    rw [abs_of_neg ha]
    have h1 : (a.num.natAbs : ℤ) = -a.num := by omega
    rw [Rat.mkRat_eq_divInt, h1, ← Rat.neg_divInt, Rat.divInt_self]
  · have ha : 0 ≤ a := Rat.num_nonneg.mp (by omega)
    have h1 : (a.num.natAbs : ℤ) = a.num := by omega
    rw [abs_of_nonneg ha, Rat.mkRat_eq_divInt, h1, Rat.divInt_self]

theorem sumQ_eq (l : List ℚ) : sumQ l = l.sum := by
  induction l with
  | nil => rfl
  | cons a rest ih =>
      rw [List.sum_cons, ← ih]
      exact ratAdd_eq a (sumQ rest)

/-! ## C4: session cleanup and the tenant registry -/

/-- C4 (amended): when the periodic cleanup declares the owning session
expired, the session entry and its conversation map are removed, but the
rag_systems registry is left entirely untouched: the RAG engine stays
registered under the expired session id. -/
theorem c4_cleanup_keeps_engine_registered (sessionTimeoutMinutes currentTime : Nat)
    (st : AppState) (sessionId : String) (sd : SessionData)
    (hfind : lookupStr st.sessions sessionId = some sd)
    (hexp : sessionTimeoutMinutes < currentTime - sd.lastAccess) :
    lookupStr (cleanupInactiveConversations sessionTimeoutMinutes currentTime st).sessions
      sessionId = none ∧
    lookupStr (cleanupInactiveConversations sessionTimeoutMinutes currentTime st).conversations
      sessionId = none ∧
    (cleanupInactiveConversations sessionTimeoutMinutes currentTime st).ragSystems
      = st.ragSystems := by
  obtain ⟨p0, hp0find, hp0snd⟩ :
      ∃ p0, st.sessions.find? (fun p => decide (p.1 = sessionId)) = some p0 ∧ p0.2 = sd := by
    rcases hf : st.sessions.find? (fun p => decide (p.1 = sessionId)) with _ | p0
    · rw [lookupStr, hf] at hfind
      exact absurd hfind (by simp)
    · rw [lookupStr, hf] at hfind
      simp at hfind
      exact ⟨p0, hf, hfind⟩
  have hp0mem : p0 ∈ st.sessions := List.mem_of_find?_eq_some hp0find
  have hp0key : p0.1 = sessionId := by simpa using List.find?_some hp0find
  have hmem : sessionId ∈ (st.sessions.filter
      (fun p => decide (sessionTimeoutMinutes < currentTime - p.2.lastAccess))).map
      (fun p => p.1) := by
    refine List.mem_map.mpr ⟨p0, ?_, hp0key⟩
    refine List.mem_filter.mpr ⟨hp0mem, ?_⟩
    simp [hp0snd, hexp]
  refine ⟨?_, ?_, rfl⟩
  · refine (lookupStr_eq_none_iff _ _).mpr ?_
    intro p hp hkey
    have h2 := (List.mem_filter.mp hp).2
    rw [hkey] at h2
    exact (of_decide_eq_true h2) hmem
  · refine (lookupStr_eq_none_iff _ _).mpr ?_
    intro p hp hkey
    have h2 := (List.mem_filter.mp hp).2
    rw [hkey] at h2
    exact (of_decide_eq_true h2) hmem

/-- C4 witness: the amended theorem at a concrete expired session. -/
theorem c4_witness :
    lookupStr appStateOne.sessions "s" = some ⟨0⟩ ∧
    (60 : Nat) < 1000 - (0 : Nat) ∧
    (lookupStr (cleanupInactiveConversations 60 1000 appStateOne).sessions "s" = none ∧
      lookupStr (cleanupInactiveConversations 60 1000 appStateOne).conversations "s" = none ∧
      (cleanupInactiveConversations 60 1000 appStateOne).ragSystems
        = appStateOne.ragSystems) :=
  ⟨by decide, by decide,
    c4_cleanup_keeps_engine_registered 60 1000 appStateOne "s" ⟨0⟩ (by decide) (by decide)⟩

/-- C4 counterexample: after the cleanup drops the expired session s together
with its conversations, the RAG engine of session s is still registered in the
rag_systems dictionary, refuting that the registry entry and the index are
dropped together with the session state. -/
theorem c4_counterexample :
    lookupStr appStateOne.sessions "s" = some ⟨0⟩ ∧
    lookupStr (cleanupInactiveConversations 60 1000 appStateOne).sessions "s" = none ∧
    lookupStr (cleanupInactiveConversations 60 1000 appStateOne).ragSystems "s"
      = some ragSystemS := by
  decide

/-! ## C3: chunking loop bound and window coverage -/

theorem chunkWindowsGo_length_le (L cs ov : Nat) :
    ∀ fuel s, (chunkWindowsGo L cs ov s fuel).length ≤ fuel := by
  intro fuel
  induction fuel with
  | zero =>
      intro s
      simp [chunkWindowsGo]
  | succ f ih =>
      intro s
      rw [chunkWindowsGo]
      by_cases h : s < L
      · rw [if_pos h]
        simp only [List.length_cons]
        have htail : (if ov = 0 ∨ min (s + cs) L < ov then []
            else if L ≤ min (s + cs) L - ov then []
            else chunkWindowsGo L cs ov (min (s + cs) L - ov) f).length ≤ f := by
          split
          · simp
          · split
            · simp
            · exact ih _
        omega
      · rw [if_neg h]
        simp

theorem chunkLoopGo_eq (tok : Tokenizer) (tokens : List Nat) (cs ov : Nat) :
    ∀ fuel s, chunkLoopGo tok tokens cs ov s fuel
      = (chunkWindowsGo tokens.length cs ov s fuel).filterMap
          (fun w => if windowChunk tok tokens w = "" then none
            else some (windowChunk tok tokens w)) := by
  intro fuel
  induction fuel with
  | zero =>
      intro s
      rfl
  | succ f ih =>
      intro s
      rw [chunkLoopGo, chunkWindowsGo]
      by_cases h : s < tokens.length
      · rw [if_pos h, if_pos h, List.filterMap_cons]
        dsimp only
        have hrest : (if ov = 0 ∨ min (s + cs) tokens.length < ov then []
            else if tokens.length ≤ min (s + cs) tokens.length - ov then []
            else chunkLoopGo tok tokens cs ov (min (s + cs) tokens.length - ov) f)
          = (if ov = 0 ∨ min (s + cs) tokens.length < ov then []
            else if tokens.length ≤ min (s + cs) tokens.length - ov then []
            else chunkWindowsGo tokens.length cs ov (min (s + cs) tokens.length - ov) f).filterMap
              (fun w => if windowChunk tok tokens w = "" then none
                else some (windowChunk tok tokens w)) := by
          split
          · rfl
          · split
            · rfl
            · exact ih _
        by_cases hw : windowChunk tok tokens (s, min (s + cs) tokens.length) = ""
        · rw [if_pos hw, if_pos hw]
          exact hrest
        · rw [if_neg hw, if_neg hw]
          rw [hrest]
      · rw [if_neg h, if_neg h]
        rfl

theorem chunkWindowsGo_cover (L cs ov : Nat) (h0 : 0 < ov) (h1 : ov < cs) :
    ∀ fuel s, s < L → L ≤ s + cs + fuel * (cs - ov) →
      ∀ i, s ≤ i → i < L →
        ∃ w ∈ chunkWindowsGo L cs ov s (fuel + 1), w.1 ≤ i ∧ i < w.2 := by
  intro fuel
  induction fuel with
  | zero =>
      intro s hs hbound i hsi hiL
      refine ⟨(s, min (s + cs) L), ?_, hsi, ?_⟩
      · rw [chunkWindowsGo, if_pos hs]
        exact List.mem_cons_self _ _
      · show i < min (s + cs) L
        omega
  | succ f ih =>
      intro s hs hbound i hsi hiL
      by_cases hie : i < min (s + cs) L
      · refine ⟨(s, min (s + cs) L), ?_, hsi, hie⟩
        rw [chunkWindowsGo, if_pos hs]
        exact List.mem_cons_self _ _
      · have he : min (s + cs) L = s + cs := by omega
        have hs2 : s + cs - ov < L := by omega
        have hsi2 : s + cs - ov ≤ i := by omega
        have hbound2 : L ≤ (s + cs - ov) + cs + f * (cs - ov) := by
          have hexp : (f + 1) * (cs - ov) = f * (cs - ov) + (cs - ov) :=
            Nat.succ_mul f (cs - ov)
          rw [hexp] at hbound
          generalize (f * (cs - ov)) = X at hbound ⊢
          omega
        obtain ⟨w, hw, hw1, hw2⟩ := ih (s + cs - ov) hs2 hbound2 i hsi2 hiL
        refine ⟨w, ?_, hw1, hw2⟩
        rw [chunkWindowsGo, if_pos hs]
        refine List.mem_cons_of_mem _ ?_
        have c1 : ¬ (ov = 0 ∨ min (s + cs) L < ov) := by omega
        have c2 : ¬ (L ≤ min (s + cs) L - ov) := by omega
        rw [if_neg c1, if_neg c2, he]
        exact hw

/-- C3 (amended): for parameters with a positive overlap below the chunk size,
the window loop scans at most the explicit max_iterations bound of windows,
every token position of the truncated token stream lies inside at least one
scanned window, and the produced chunks are exactly the cleaned decoded texts
of the scanned windows with the whitespace-only windows dropped.  With zero
overlap the loop stops after the first window (see the counterexample), so the
positive-overlap hypothesis is necessary for coverage. -/
theorem c3_bounded_window_coverage (tok : Tokenizer) (text : String) (cs ov : Nat)
    (h0 : 0 < ov) (h1 : ov < cs) :
    ((chunkWindows (truncTokens tok text).length cs ov).length
        ≤ chunkMaxIter (truncTokens tok text).length cs ov) ∧
    (∀ i, i < (truncTokens tok text).length →
      ∃ w ∈ chunkWindows (truncTokens tok text).length cs ov, w.1 ≤ i ∧ i < w.2) ∧
    (pyStrip text ≠ "" →
      createChunks tok text cs ov
        = (chunkWindows (truncTokens tok text).length cs ov).filterMap
            (fun w => if windowChunk tok (truncTokens tok text) w = "" then none
              else some (windowChunk tok (truncTokens tok text) w))) := by
  refine ⟨chunkWindowsGo_length_le _ _ _ _ _, ?_, ?_⟩
  · intro i hiL
    have hd : 0 < cs - ov := by omega
    have hfuel : chunkMaxIter (truncTokens tok text).length cs ov
        = ((truncTokens tok text).length / (cs - ov) + 9) + 1 := by
      unfold chunkMaxIter
      omega
    have hbound : (truncTokens tok text).length
        ≤ 0 + cs + ((truncTokens tok text).length / (cs - ov) + 9) * (cs - ov) := by
      have h2 := Nat.div_add_mod (truncTokens tok text).length (cs - ov)
      have h3 : (truncTokens tok text).length % (cs - ov) < cs - ov :=
        Nat.mod_lt _ hd
      have hexp : ((truncTokens tok text).length / (cs - ov) + 9) * (cs - ov)
          = (cs - ov) * ((truncTokens tok text).length / (cs - ov)) + 9 * (cs - ov) := by
        ring
      rw [hexp]
      generalize ((cs - ov) * ((truncTokens tok text).length / (cs - ov))) = X at h2 ⊢
      omega
    have hcov := chunkWindowsGo_cover (truncTokens tok text).length cs ov h0 h1
      ((truncTokens tok text).length / (cs - ov) + 9) 0 (by omega) hbound i (Nat.zero_le i) hiL
    rw [chunkWindows, hfuel]
    exact hcov
  · intro hne
    unfold createChunks
    rw [if_neg hne]
    exact chunkLoopGo_eq tok (truncTokens tok text) cs ov _ 0

/-- C3 witness: the amended theorem at a two-character text with chunk size two
and overlap one under the character tokenizer, with the coverage conjunct
instantiated at token position one. -/
theorem c3_witness :
    (0 : Nat) < 1 ∧ (1 : Nat) < 2 ∧
    ((chunkWindows (truncTokens charTok "ab").length 2 1).length
        ≤ chunkMaxIter (truncTokens charTok "ab").length 2 1) ∧
    (∃ w ∈ chunkWindows (truncTokens charTok "ab").length 2 1, w.1 ≤ 1 ∧ 1 < w.2) ∧
    createChunks charTok "ab" 2 1
      = (chunkWindows (truncTokens charTok "ab").length 2 1).filterMap
          (fun w => if windowChunk charTok (truncTokens charTok "ab") w = "" then none
            else some (windowChunk charTok (truncTokens charTok "ab") w)) :=
  ⟨by decide, by decide,
    (c3_bounded_window_coverage charTok "ab" 2 1 (by decide) (by decide)).1,
    (c3_bounded_window_coverage charTok "ab" 2 1 (by decide) (by decide)).2.1 1 (by decide),
    (c3_bounded_window_coverage charTok "ab" 2 1 (by decide) (by decide)).2.2 (by decide)⟩

/-- C3 counterexample: with overlap zero (which satisfies overlap below chunk
size) on a three-token input with chunk size one, the loop stops after the
first window: the output is one chunk and the tokens for b and c appear in no
output chunk, refuting the full-coverage claim as stated. -/
theorem c3_counterexample :
    (0 : Nat) < 1 ∧
    truncTokens charTok "abc" = [97, 98, 99] ∧
    createChunks charTok "abc" 1 0 = ["a"] ∧
    ¬ ∃ s ∈ createChunks charTok "abc" 1 0, 'b' ∈ s.data := by
  decide

/-! ## C10: duplicate-key inserts -/

theorem payloadHitKey_metaSet (m : Meta) (k : String) (id : Nat) :
    payloadHitKey (metaSet m "_key" (.str k)) id = k := by
  simp [payloadHitKey, lookupStr_metaSet_self]

theorem points_of_collection (db : VectorDatabase) (c : QdrantCollection)
    (hc : db.collection = some c) : c.points = db.points := by
  simp [VectorDatabase.points, hc]

theorem collection_isSome_of_points_ne (db : VectorDatabase)
    (h : db.points ≠ []) : ∃ c, db.collection = some c := by
  rcases hc : db.collection with _ | c
  · refine absurd ?_ h
    simp [VectorDatabase.points, hc]
  · exact ⟨c, rfl⟩

theorem search_countP (db : VectorDatabase) (q : Vec) (n : Nat) (dm : MetricArg)
    (c : QdrantCollection) (hc : db.collection = some c) (hn : c.points.length ≤ n)
    (k : String) :
    ((db.search q n dm).map Prod.fst).countP (fun s => decide (s = k))
      = c.points.countP (fun p => decide (payloadHitKey p.payload p.id = k)) := by
  simp only [VectorDatabase.search, hc]
  rw [List.map_map, List.countP_map]
  unfold qdrantQueryPoints
  have hperm := List.perm_insertionSort (hitRank c.distance)
    (c.points.map (fun p => ⟨p.id, p.payload, qScore c.distance q p.vector⟩))
  rw [List.take_of_length_le]
  · rw [hperm.countP_eq, List.countP_map]
    rfl
  · calc (List.insertionSort (hitRank c.distance)
          (c.points.map (fun p => ⟨p.id, p.payload, qScore c.distance q p.vector⟩))).length
        = (c.points.map (fun p =>
            (⟨p.id, p.payload, qScore c.distance q p.vector⟩ : ScoredPoint))).length :=
          hperm.length_eq
    _ = c.points.length := by simp
    _ ≤ n := hn

/-- C10: inserting twice under the same key stores two distinct records (the
point count grows by two and both carry the key in their payload), both can
appear in search results under that key when the limit covers the index, while
retrieve_from_key and get_metadata resolve the key to the most recently
inserted record only. -/
theorem c10_duplicate_key_two_records (db : VectorDatabase) (k : String)
    (v1 v2 : Vec) (m1 m2 : Meta) (hwf : db.WF) (hdim : db.dimOk v1.length)
    (hlen : v2.length = v1.length) :
    (((db.insert k v1 m1).2.insert k v2 m2).2.points.length = db.points.length + 2) ∧
    (((db.insert k v1 m1).2.insert k v2 m2).2.points.countP
        (fun p => decide (payloadHitKey p.payload p.id = k))
      = db.points.countP (fun p => decide (payloadHitKey p.payload p.id = k)) + 2) ∧
    ((db.insert k v1 m1).2.insert k v2 m2).2.retrieveFromKey k = some v2 ∧
    ((db.insert k v1 m1).2.insert k v2 m2).2.getMetadata k = metaErase m2 "_key" ∧
    (∀ q n dm, ((db.insert k v1 m1).2.insert k v2 m2).2.points.length ≤ n →
      2 ≤ ((((db.insert k v1 m1).2.insert k v2 m2).2.search q n dm).map Prod.fst).countP
        (fun s => decide (s = k))) := by
  obtain ⟨he1, hp1, hk1, hn1, hwf1, hdim1⟩ := insert_ok db k v1 m1 hwf hdim
  have hdim1b : (db.insert k v1 m1).2.dimOk v2.length := by
    intro c hcc
    rw [hlen]
    exact hdim1 c hcc
  obtain ⟨he2, hp2, hk2, hn2, hwf2, hdim2⟩ :=
    insert_ok (db.insert k v1 m1).2 k v2 m2 hwf1 hdim1b
  rw [hp1, hn1] at hp2
  rw [hk1, hn1] at hk2
  have hpts : ((db.insert k v1 m1).2.insert k v2 m2).2.points
      = db.points ++ [⟨db.nextId, v1, metaSet m1 "_key" (.str k)⟩]
        ++ [⟨db.nextId + 1, v2, metaSet m2 "_key" (.str k)⟩] := hp2
  have hcount : ((db.insert k v1 m1).2.insert k v2 m2).2.points.countP
      (fun p => decide (payloadHitKey p.payload p.id = k))
    = db.points.countP (fun p => decide (payloadHitKey p.payload p.id = k)) + 2 := by
    rw [hpts, List.countP_append, List.countP_append]
    simp [List.countP_cons, payloadHitKey_metaSet]
  have hfind : ((db.insert k v1 m1).2.insert k v2 m2).2.points.find?
      (fun p => decide (p.id = db.nextId + 1))
      = some ⟨db.nextId + 1, v2, metaSet m2 "_key" (.str k)⟩ := by
    rw [hpts]
    rw [find?_append_of_none]
    · rw [List.find?_cons]
      simp
    · refine List.find?_eq_none.mpr (fun p hp => ?_)
      rcases List.mem_append.mp hp with hp | hp
      · have := hwf p hp
        simp
        omega
      · simp at hp
        subst hp
        simp
  have hlk : lookupStr ((db.insert k v1 m1).2.insert k v2 m2).2.keyToId k
      = some (db.nextId + 1) := by
    rw [hk2, lookupStr_cons, if_pos rfl]
  obtain ⟨c2, hc2⟩ := collection_isSome_of_points_ne
    ((db.insert k v1 m1).2.insert k v2 m2).2 (by rw [hpts]; simp)
  have hc2pts := points_of_collection _ c2 hc2
  refine ⟨by rw [hpts]; simp, hcount, ?_, ?_, ?_⟩
  · simp only [VectorDatabase.retrieveFromKey, hlk, hc2]
    rw [hc2pts, hfind]
    rfl
  · simp only [VectorDatabase.getMetadata, hlk, hc2]
    rw [hc2pts, hfind]
    exact metaErase_metaSet m2 "_key" (.str k)
  · intro q n dm hn
    rw [search_countP _ q n dm c2 hc2 (by rw [hc2pts]; exact hn) k]
    rw [hc2pts, hcount]
    omega

/-- C10 witness: two inserts under the same key on a fresh database. -/
theorem c10_witness :
    (((VectorDatabase.empty.insert "k" [(1 : ℚ), 0] []).2.insert "k" [(2 : ℚ), 0]
        [("t", MetaVal.nat 1)]).2.points.length = 2) ∧
    (((VectorDatabase.empty.insert "k" [(1 : ℚ), 0] []).2.insert "k" [(2 : ℚ), 0]
        [("t", MetaVal.nat 1)]).2.points.countP
        (fun p => decide (payloadHitKey p.payload p.id = "k")) = 2) ∧
    ((VectorDatabase.empty.insert "k" [(1 : ℚ), 0] []).2.insert "k" [(2 : ℚ), 0]
        [("t", MetaVal.nat 1)]).2.retrieveFromKey "k" = some [(2 : ℚ), 0] ∧
    ((VectorDatabase.empty.insert "k" [(1 : ℚ), 0] []).2.insert "k" [(2 : ℚ), 0]
        [("t", MetaVal.nat 1)]).2.getMetadata "k"
      = metaErase [("t", MetaVal.nat 1)] "_key" ∧
    2 ≤ ((((VectorDatabase.empty.insert "k" [(1 : ℚ), 0] []).2.insert "k" [(2 : ℚ), 0]
        [("t", MetaVal.nat 1)]).2.search [1, 0] 5 (.enum .COSINE)).map Prod.fst).countP
        (fun s => decide (s = "k")) := by
  have h := c10_duplicate_key_two_records VectorDatabase.empty "k" [(1 : ℚ), 0]
    [(2 : ℚ), 0] [] [("t", MetaVal.nat 1)]
    (by intro p hp; simp [VectorDatabase.points, VectorDatabase.empty] at hp)
    (by intro c hcc; simp [VectorDatabase.empty] at hcc)
    rfl
  exact ⟨h.1, h.2.1, h.2.2.1, h.2.2.2.1, h.2.2.2.2 [1, 0] 5 (.enum .COSINE) (by decide)⟩

/-! ## C7: index_document record shape -/

theorem expectedRecords_length (documentId : String) (metadata : Meta) :
    ∀ (pairs : List (String × Vec)) (pid i : Nat),
      (expectedRecords documentId metadata pid i pairs).length = pairs.length := by
  intro pairs
  induction pairs with
  | nil => intro pid i; rfl
  | cons hd tl ih =>
      rcases hd with ⟨chunk, emb⟩
      intro pid i
      rw [expectedRecords]
      simp [ih]

theorem expectedRecords_getElem (documentId : String) (metadata : Meta) :
    ∀ (pairs : List (String × Vec)) (pid i j : Nat) (pr : String × Vec),
      pairs[j]? = some pr →
      (expectedRecords documentId metadata pid i pairs)[j]?
        = some ⟨pid + j, pr.2,
            metaSet (metaMerge [("document_id", .str documentId),
              ("chunk_index", .nat (i + j)), ("chunk_text", .str pr.1)] metadata)
              "_key" (.str (documentId ++ "_chunk_" ++ toString (i + j)))⟩ := by
  intro pairs
  induction pairs with
  | nil =>
      intro pid i j pr h
      simp at h
  | cons hd tl ih =>
      rcases hd with ⟨chunk, emb⟩
      intro pid i j pr h
      cases j with
      | zero =>
          simp at h
          rw [expectedRecords]
          simp [← h]
      | succ j2 =>
          simp only [List.getElem?_cons_succ] at h
          rw [expectedRecords]
          simp only [List.getElem?_cons_succ]
          rw [ih (pid + 1) (i + 1) j2 pr h]
          rw [show pid + 1 + j2 = pid + (j2 + 1) from by omega]
          rw [show i + 1 + j2 = i + (j2 + 1) from by omega]

theorem zip_getElem? {α β : Type} : ∀ (l1 : List α) (l2 : List β) (j : Nat) (x : α),
    l1[j]? = some x → j < l2.length → ∃ y, (l1.zip l2)[j]? = some (x, y) := by
  intro l1
  induction l1 with
  | nil =>
      intro l2 j x h
      simp at h
  | cons a t ih =>
      intro l2 j x h hj
      cases l2 with
      | nil => simp at hj
      | cons b t2 =>
          cases j with
          | zero =>
              simp at h
              exact ⟨b, by simp [← h]⟩
          | succ j2 =>
              simp only [List.getElem?_cons_succ] at h
              simp only [List.length_cons] at hj
              obtain ⟨y, hy⟩ := ih t2 j2 x h (by omega)
              exact ⟨y, by simpa using hy⟩

theorem indexChunkInserts_spec (documentId : String) (metadata : Meta) (d : Nat) :
    ∀ (pairs : List (String × Vec)) (db : VectorDatabase) (i : Nat),
      db.WF → db.dimOk d → (∀ pr ∈ pairs, pr.2.length = d) →
      (indexChunkInserts documentId metadata db i pairs).1 = none ∧
      (indexChunkInserts documentId metadata db i pairs).2.points
        = db.points ++ expectedRecords documentId metadata db.nextId i pairs := by
  intro pairs
  induction pairs with
  | nil =>
      intro db i hwf hdim hed
      exact ⟨rfl, by rw [expectedRecords]; simp [indexChunkInserts]⟩
  | cons hd tl ih =>
      rcases hd with ⟨chunk, emb⟩
      intro db i hwf hdim hed
      have hde : emb.length = d := hed (chunk, emb) (List.mem_cons_self _ _)
      have hdim2 : db.dimOk emb.length := by
        rw [hde]
        exact hdim
      obtain ⟨he1, hp1, hk1, hn1, hwf1, hdim1⟩ :=
        insert_ok db (documentId ++ "_chunk_" ++ toString i) emb
          (metaMerge [("document_id", .str documentId), ("chunk_index", .nat i),
            ("chunk_text", .str chunk)] metadata) hwf hdim2
      rcases hins : db.insert (documentId ++ "_chunk_" ++ toString i) emb
          (metaMerge [("document_id", .str documentId), ("chunk_index", .nat i),
            ("chunk_text", .str chunk)] metadata) with ⟨err, db2⟩
      rw [hins] at he1 hp1 hk1 hn1 hwf1 hdim1
      simp only at he1 hp1 hk1 hn1 hwf1 hdim1
      subst he1
      have hdim1d : db2.dimOk d := by
        rw [← hde]
        exact hdim1
      have hed2 : ∀ pr ∈ tl, pr.2.length = d :=
        fun pr hpr => hed pr (List.mem_cons_of_mem _ hpr)
      obtain ⟨hr1, hr2⟩ := ih db2 (i + 1) hwf1 hdim1d hed2
      rw [indexChunkInserts, hins]
      refine ⟨hr1, ?_⟩
      rw [hr2, hp1, hn1, expectedRecords]
      simp [List.append_assoc]

/-- C7 (amended): with one embedding per chunk of uniform dimensionality
accepted by the index, and document metadata that does not itself contain the
reserved chunk_index or chunk_text keys (the metadata spread in the source
overrides the per-chunk fields, see the counterexample), index_document
succeeds, inserts exactly N records in original chunk order keyed
documentId_chunk_i, each carrying chunk_index i and the chunk text in its
payload, and records chunk_count N for the document. -/
theorem c7_index_document_records (rag : RAGSystem) (documentId : String)
    (chunks : List String) (embeddings : List Vec) (metadata : Meta) (d : Nat)
    (hwf : rag.vectorDb.WF) (hdim : rag.vectorDb.dimOk d)
    (hlen : embeddings.length = chunks.length)
    (hed : ∀ e ∈ embeddings, e.length = d)
    (hm1 : lookupStr metadata "chunk_index" = none)
    (hm2 : lookupStr metadata "chunk_text" = none) :
    (rag.indexDocument documentId chunks embeddings metadata).1 = none ∧
    (rag.indexDocument documentId chunks embeddings metadata).2.vectorDb.points.length
      = rag.vectorDb.points.length + chunks.length ∧
    (∀ j chunk, chunks[j]? = some chunk →
      ∃ p, (rag.indexDocument documentId chunks embeddings
            metadata).2.vectorDb.points[rag.vectorDb.points.length + j]? = some p ∧
        lookupStr p.payload "_key"
          = some (.str (documentId ++ "_chunk_" ++ toString j)) ∧
        lookupStr p.payload "chunk_index" = some (.nat j) ∧
        lookupStr p.payload "chunk_text" = some (.str chunk)) ∧
    lookupStr (rag.indexDocument documentId chunks embeddings metadata).2.documents
      documentId = some ⟨chunks.length, metadata⟩ := by
  have hplen : (chunks.zip embeddings).length = chunks.length := by
    rw [List.length_zip]
    omega
  have hed2 : ∀ pr ∈ chunks.zip embeddings, pr.2.length = d := by
    intro pr hpr
    exact hed pr.2 (List.of_mem_zip hpr).2
  obtain ⟨hin1, hin2⟩ := indexChunkInserts_spec documentId metadata d
    (chunks.zip embeddings) rag.vectorDb 0 hwf hdim hed2
  rcases hic : indexChunkInserts documentId metadata rag.vectorDb 0
      (chunks.zip embeddings) with ⟨err, db2⟩
  rw [hic] at hin1 hin2
  simp only at hin1 hin2
  subst hin1
  have hdoc : rag.indexDocument documentId chunks embeddings metadata
      = (none, ⟨rag.apiKey, rag.modelName, db2,
          (documentId, ⟨chunks.length, metadata⟩)
            :: rag.documents.filter (fun p => decide (p.1 ≠ documentId))⟩) := by
    rw [RAGSystem.indexDocument, hic]
  rw [hdoc]
  refine ⟨rfl, ?_, ?_, ?_⟩
  · show db2.points.length = rag.vectorDb.points.length + chunks.length
    rw [hin2]
    simp [expectedRecords_length, hplen]
  · intro j chunk hcj
    have hj : j < chunks.length := by
      rcases List.getElem?_eq_some.mp hcj with ⟨h, _⟩
      exact h
    obtain ⟨y, hy⟩ := zip_getElem? chunks embeddings j chunk hcj (by omega)
    have hrec := expectedRecords_getElem documentId metadata
      (chunks.zip embeddings) rag.vectorDb.nextId 0 j (chunk, y) hy
    refine ⟨⟨rag.vectorDb.nextId + j, y,
      metaSet (metaMerge [("document_id", .str documentId),
        ("chunk_index", .nat (0 + j)), ("chunk_text", .str chunk)] metadata)
        "_key" (.str (documentId ++ "_chunk_" ++ toString (0 + j)))⟩, ?_, ?_, ?_, ?_⟩
    · show db2.points[rag.vectorDb.points.length + j]? = _
      rw [hin2, List.getElem?_append_right (by omega)]
      rw [show rag.vectorDb.points.length + j - rag.vectorDb.points.length = j
        from by omega]
      exact hrec
    · rw [lookupStr_metaSet_self]
      rw [show (0 : Nat) + j = j from by omega]
    · rw [lookupStr_metaSet_ne _ _ _ _ (by decide)]
      rw [lookupStr_metaMerge_absent _ _ _
        ((lookupStr_eq_none_iff metadata "chunk_index").mp hm1)]
      rw [lookupStr_cons, if_neg (by decide), lookupStr_cons, if_pos rfl]
      rw [show (0 : Nat) + j = j from by omega]
    · rw [lookupStr_metaSet_ne _ _ _ _ (by decide)]
      rw [lookupStr_metaMerge_absent _ _ _
        ((lookupStr_eq_none_iff metadata "chunk_text").mp hm2)]
      rw [lookupStr_cons, if_neg (by decide), lookupStr_cons, if_neg (by decide),
        lookupStr_cons, if_pos rfl]
  · show lookupStr ((documentId, ⟨chunks.length, metadata⟩)
        :: rag.documents.filter (fun p => decide (p.1 ≠ documentId))) documentId
      = some ⟨chunks.length, metadata⟩
    rw [lookupStr_cons, if_pos rfl]

/-- C7 witness: a two-chunk document on a fresh engine, with the per-record
conjunct instantiated at chunk zero. -/
theorem c7_witness :
    ((RAGSystem.new "k" "m").indexDocument "doc" ["hello", "world"]
        [[(1 : ℚ), 0], [(0 : ℚ), 1]] [("file_name", MetaVal.str "f")]).1 = none ∧
    ((RAGSystem.new "k" "m").indexDocument "doc" ["hello", "world"]
        [[(1 : ℚ), 0], [(0 : ℚ), 1]]
        [("file_name", MetaVal.str "f")]).2.vectorDb.points.length
      = (RAGSystem.new "k" "m").vectorDb.points.length + 2 ∧
    (∃ p, ((RAGSystem.new "k" "m").indexDocument "doc" ["hello", "world"]
          [[(1 : ℚ), 0], [(0 : ℚ), 1]]
          [("file_name", MetaVal.str "f")]).2.vectorDb.points[
            (RAGSystem.new "k" "m").vectorDb.points.length + 0]? = some p ∧
      lookupStr p.payload "_key" = some (.str ("doc" ++ "_chunk_" ++ toString 0)) ∧
      lookupStr p.payload "chunk_index" = some (.nat 0) ∧
      lookupStr p.payload "chunk_text" = some (.str "hello")) ∧
    lookupStr ((RAGSystem.new "k" "m").indexDocument "doc" ["hello", "world"]
        [[(1 : ℚ), 0], [(0 : ℚ), 1]] [("file_name", MetaVal.str "f")]).2.documents "doc"
      = some ⟨2, [("file_name", MetaVal.str "f")]⟩ := by
  have h := c7_index_document_records (RAGSystem.new "k" "m") "doc" ["hello", "world"]
    [[(1 : ℚ), 0], [(0 : ℚ), 1]] [("file_name", MetaVal.str "f")] 2
    (by intro p hp; simp [RAGSystem.new, VectorDatabase.points, VectorDatabase.empty] at hp)
    (by intro c hcc; simp [RAGSystem.new, VectorDatabase.empty] at hcc)
    rfl (by decide) (by decide) (by decide)
  exact ⟨h.1, h.2.1, h.2.2.1 0 "hello" (by decide), h.2.2.2⟩

/-- C7 counterexample: when the document metadata itself contains a
chunk_index key, the metadata spread of the source overrides the per-chunk
field, so the stored record carries chunk_index 99 instead of its ordinal 0,
refuting the claim for arbitrary metadata. -/
theorem c7_counterexample :
    ((RAGSystem.new "k" "m").indexDocument "doc" ["hello"] [[(1 : ℚ)]]
        [("chunk_index", MetaVal.nat 99)]).1 = none ∧
    (((RAGSystem.new "k" "m").indexDocument "doc" ["hello"] [[(1 : ℚ)]]
        [("chunk_index", MetaVal.nat 99)]).2.vectorDb.points.length = 1) ∧
    (∀ p ∈ ((RAGSystem.new "k" "m").indexDocument "doc" ["hello"] [[(1 : ℚ)]]
        [("chunk_index", MetaVal.nat 99)]).2.vectorDb.points,
      lookupStr p.payload "chunk_index" = some (MetaVal.nat 99)) ∧
    ¬ ∃ p ∈ ((RAGSystem.new "k" "m").indexDocument "doc" ["hello"] [[(1 : ℚ)]]
        [("chunk_index", MetaVal.nat 99)]).2.vectorDb.points,
      lookupStr p.payload "chunk_index" = some (MetaVal.nat 0) := by
  decide
